import Mathlib

/-!
Verification of the extraction subsystem of the `kafka-cli` repository
(command `extract` in package `cmd`, plus its time parser and record
decoder).  The definitions below are a shallow embedding of the Go
source: the kafka-go revision of `extractCmd` is the primary embedding
(its offset-resolution fallback, empty-partition guard, bounded read
loop and serialization), and the kadm/franz-go revision's offset
resolution is embedded alongside where the two revisions differ.
-/

namespace KafkaCli

/-! ## JSON values

The extract command decodes each record payload with
`json.Unmarshal(record.Value, &body)` where `body` is a
`map[string]interface{}`, and serializes the collected envelopes with
`encoding/json`.  `Json` models the JSON values that Go's
`encoding/json` reads and writes; a number is kept as its source
lexeme (the claims never inspect numeric magnitudes). -/

inductive Json where
  | null
  | bool (b : Bool)
  | num (lexeme : String)
  | str (s : String)
  | arr (items : List Json)
  | obj (fields : List (String × Json))
deriving Repr

/-! ## A JSON reader modelling Go `encoding/json`

`parseJson` models the grammar that `json.Unmarshal` accepts: optional
surrounding whitespace, a single complete JSON value, nothing after it.
Recursion is by explicit fuel (an input of length `n` never nests more
than `n` deep, so `n + 1` fuel always suffices). -/

def isWs (c : Char) : Bool :=
  c = ' ' || c = '\t' || c = '\n' || c = '\r'

def skipWs : List Char → List Char
  | [] => []
  | c :: cs => if isWs c then skipWs cs else c :: cs

def hexVal (c : Char) : Option Nat :=
  if '0' ≤ c ∧ c ≤ '9' then some (c.toNat - 48)
  else if 'a' ≤ c ∧ c ≤ 'f' then some (c.toNat - 87)
  else if 'A' ≤ c ∧ c ≤ 'F' then some (c.toNat - 55)
  else none

/-- Translation of a single-character JSON escape (the part after the
backslash), as accepted by Go's JSON decoder. -/
def escChar (e : Char) : Option Char :=
  if e = '"' then some '"'
  else if e = '\\' then some '\\'
  else if e = '/' then some '/'
  else if e = 'b' then some (Char.ofNat 8)
  else if e = 'f' then some (Char.ofNat 12)
  else if e = 'n' then some '\n'
  else if e = 'r' then some '\r'
  else if e = 't' then some '\t'
  else none

/-- Body of a JSON string literal, after the opening quote: returns the
decoded characters and the input after the closing quote.  A `\uXXXX`
escape is mapped to its code unit directly (surrogate-pair combination
is not modelled; no claim depends on it). -/
def parseStringBody : Nat → List Char → Option (List Char × List Char)
  | 0, _ => none
  | _, [] => none
  | fuel + 1, c :: cs =>
    if c = '"' then some ([], cs)
    else if c = '\\' then
      match cs with
      | [] => none
      | e :: cs2 =>
        if e = 'u' then
          match cs2 with
          | c1 :: c2 :: c3 :: c4 :: cs6 =>
            match hexVal c1, hexVal c2, hexVal c3, hexVal c4 with
            | some h1, some h2, some h3, some h4 =>
              match parseStringBody fuel cs6 with
              | some (out, rest) =>
                some (Char.ofNat (((h1 * 16 + h2) * 16 + h3) * 16 + h4) :: out, rest)
              | none => none
            | _, _, _, _ => none
          | _ => none
        else
          match escChar e, parseStringBody fuel cs2 with
          | some ch, some (out, rest) => some (ch :: out, rest)
          | _, _ => none
    else if c.toNat < 32 then none
    else
      match parseStringBody fuel cs with
      | some (out, rest) => some (c :: out, rest)
      | none => none

def takeDigits : List Char → List Char × List Char
  | [] => ([], [])
  | c :: cs =>
    if c.isDigit then
      let (ds, rest) := takeDigits cs
      (c :: ds, rest)
    else ([], c :: cs)

/-- Integer part of a JSON number: `0`, or a nonzero digit followed by
digits (leading zeros are refused, as in Go). -/
def parseIntPart : List Char → Option (List Char × List Char)
  | [] => none
  | c :: cs =>
    if c = '0' then some ([c], cs)
    else if c.isDigit then
      let (ds, rest) := takeDigits cs
      some (c :: ds, rest)
    else none

/-- Optional fractional part `.digits`. -/
def parseFracPart : List Char → Option (List Char × List Char)
  | [] => some ([], [])
  | c :: cs =>
    if c = '.' then
      match takeDigits cs with
      | ([], _) => none
      | (ds, rest) => some (c :: ds, rest)
    else some ([], c :: cs)

/-- Optional exponent part `e[+-]digits`. -/
def parseExpPart : List Char → Option (List Char × List Char)
  | [] => some ([], [])
  | c :: cs =>
    if c = 'e' ∨ c = 'E' then
      let (sgn, cs2) :=
        match cs with
        | d :: ds => if d = '+' ∨ d = '-' then ([d], ds) else ([], d :: ds)
        | [] => ([], [])
      match takeDigits cs2 with
      | ([], _) => none
      | (ds, rest) => some (c :: (sgn ++ ds), rest)
    else some ([], c :: cs)

/-- A JSON number lexeme: optional minus sign, integer part, optional
fraction, optional exponent. -/
def parseNumberLexeme (l : List Char) : Option (List Char × List Char) :=
  let (sgn, l1) :=
    match l with
    | c :: cs => if c = '-' then ([c], cs) else ([], c :: cs)
    | [] => ([], [])
  match parseIntPart l1 with
  | none => none
  | some (ip, r1) =>
    match parseFracPart r1 with
    | none => none
    | some (fp, r2) =>
      match parseExpPart r2 with
      | none => none
      | some (ep, r3) => some (sgn ++ ip ++ fp ++ ep, r3)

mutual

/-- One JSON value starting at the head of the input (whitespace already
skipped); returns the value and the remaining input. -/
def parseValue : Nat → List Char → Option (Json × List Char)
  | 0, _ => none
  | _, [] => none
  | fuel + 1, c :: cs =>
    if c = 'n' then
      match cs with
      | 'u' :: 'l' :: 'l' :: rest => some (.null, rest)
      | _ => none
    else if c = 't' then
      match cs with
      | 'r' :: 'u' :: 'e' :: rest => some (.bool true, rest)
      | _ => none
    else if c = 'f' then
      match cs with
      | 'a' :: 'l' :: 's' :: 'e' :: rest => some (.bool false, rest)
      | _ => none
    else if c = '"' then
      match parseStringBody (cs.length + 1) cs with
      | some (out, rest) => some (.str (String.mk out), rest)
      | none => none
    else if c = '[' then
      match skipWs cs with
      | d :: ds => if d = ']' then some (.arr [], ds) else parseArrayItems fuel cs
      | [] => none
    else if c = '\x7b' then
      match skipWs cs with
      | d :: ds => if d = '\x7d' then some (.obj [], ds) else parseObjectItems fuel cs
      | [] => none
    else if c = '-' ∨ c.isDigit then
      match parseNumberLexeme (c :: cs) with
      | some (lx, rest) => some (.num (String.mk lx), rest)
      | none => none
    else none

/-- Comma-separated array items up to the closing bracket. -/
def parseArrayItems : Nat → List Char → Option (Json × List Char)
  | 0, _ => none
  | fuel + 1, l =>
    match parseValue fuel (skipWs l) with
    | none => none
    | some (v, rest) =>
      match skipWs rest with
      | c :: cs =>
        if c = ',' then
          match parseArrayItems fuel cs with
          | some (.arr vs, rest2) => some (.arr (v :: vs), rest2)
          | _ => none
        else if c = ']' then some (.arr [v], cs)
        else none
      | [] => none

/-- Comma-separated `"key": value` members up to the closing brace. -/
def parseObjectItems : Nat → List Char → Option (Json × List Char)
  | 0, _ => none
  | fuel + 1, l =>
    match skipWs l with
    | c :: cs =>
      if c = '"' then
        match parseStringBody (cs.length + 1) cs with
        | some (key, r1) =>
          match skipWs r1 with
          | d :: ds =>
            if d = ':' then
              match parseValue fuel (skipWs ds) with
              | some (v, r2) =>
                match skipWs r2 with
                | e :: es =>
                  if e = ',' then
                    match parseObjectItems fuel es with
                    | some (.obj kvs, r3) => some (.obj ((String.mk key, v) :: kvs), r3)
                    | _ => none
                  else if e = '\x7d' then some (.obj [(String.mk key, v)], es)
                  else none
                | [] => none
              | none => none
            else none
          | [] => none
        | none => none
      else none
    | [] => none

end

/-- Models what `encoding/json` accepts as a complete input: optional
whitespace, one JSON value, optional whitespace, end of input. -/
def parseJson (s : String) : Option Json :=
  match parseValue (s.length + 1) (skipWs s.data) with
  | some (v, rest) => if skipWs rest = [] then some v else none
  | none => none

example : parseJson "null" = some .null := by rfl
example : parseJson "not valid json" = none := by rfl
example : parseJson "[1]" = some (.arr [.num "1"]) := by rfl
example : parseJson " \x7b\"a\": true\x7d " = some (.obj [("a", .bool true)]) := by rfl
example : parseJson "\"hi\"" = some (.str "hi") := by rfl
example : parseJson "1 2" = none := by rfl

/-! ## Record decoding

The read loop of `extractCmd` decodes each fetched record with

```
var body map[string]interface\x7b\x7d
if jsonErr := json.Unmarshal(m.Value, &body); jsonErr != nil \x7b
    body = map[string]interface\x7b\x7d\x7b"raw": string(m.Value)\x7d
\x7d
```

A Go `map[string]interface\x7b\x7d` is either `nil` or a table; it is
modelled as `Option (List (String × Json))`, `none` standing for the
nil map. -/

/-- Models Go `json.Unmarshal(data, &m)` for `m : map[string]interface`:
an error (`none`) when the input is not valid JSON or is a valid JSON
value of a non-object kind other than `null`; a JSON `null` is a no-op,
leaving the map `nil`; a JSON object fills the map. -/
def unmarshalIntoMap (s : String) : Option (Option (List (String × Json))) :=
  match parseJson s with
  | none => none
  | some .null => some none
  | some (.obj fields) => some (some fields)
  | some _ => none

/-- The payload-decoding policy of the read loop: on any `Unmarshal`
error the body becomes the synthetic map `\x7b"raw": payload\x7d`; a
successful `Unmarshal` (including of `null`) keeps its result. -/
def decodeBody (payload : String) : Option (List (String × Json)) :=
  match unmarshalIntoMap payload with
  | some body => body
  | none => some [("raw", Json.str payload)]

/-! ## Message envelopes

Modelled from the spec: the `MessageEnvelope` type that `extractCmd`
fills (`MessageEnvelope\x7bTopic: ..., Headers: ..., Message: ...\x7d`)
is not declared in the available sources — `cmd/produce.go` declares an
older `\x7bTopic, Object\x7d` shape — so the struct follows the spec's
file format: each envelope serializes as
`\x7b"Topic": string, "Headers": \x7bstring:string\x7d, "Message": json\x7d`
(Go's default field naming, no tags).  `Headers` is built by copying
record header key/value pairs; `Message` is the decoded body map
(`none` = nil map, serialized as JSON `null`). -/
structure MessageEnvelope where
  Topic : String
  Headers : List (String × String)
  Message : Option (List (String × Json))

/-- A record as delivered by the partition reader: its offset, header
pairs, and raw payload bytes (as a string, the way the Go code consumes
them). -/
structure FetchedRecord where
  offset : Int
  headers : List (String × String)
  value : String

/-- Decoding of one fetched record into an envelope, as done in the
body of the read loop. -/
def decodeRecord (topic : String) (r : FetchedRecord) : MessageEnvelope :=
  { Topic := topic, Headers := r.headers, Message := decodeBody r.value }

/-! ## The bounded read loop

Lines 423–457 of the kafka-go revision of `extractCmd` (the franz-go
revision's loop at lines 192–223 has the same per-record logic): read
records in order; on a record with `m.Offset >= endOffset` stop without
appending; otherwise decode and append.  The input list is the sequence
of records the reader actually delivers before EOF or the deadline, so
timeout truncation is modelled by running the loop on a `take k` prefix
of the stream. -/
def readLoop (topic : String) (endOffset : Int) : List FetchedRecord → List MessageEnvelope
  | [] => []
  | r :: rs =>
    if endOffset ≤ r.offset then []
    else decodeRecord topic r :: readLoop topic endOffset rs

/-! ## Offset resolution

Kafka-go revision, lines 361–380: `conn.ReadOffset(t)` either fails
(`none`), or returns the sentinel `-1`, or returns an offset.  On
failure or sentinel the start endpoint falls back to `firstOffset` and
the end endpoint to `lastOffset`. -/

def resolveStartOffset (firstOffset : Int) (lookup : Option Int) : Int :=
  match lookup with
  | none => firstOffset
  | some o => if o = -1 then firstOffset else o

def resolveEndOffset (lastOffset : Int) (lookup : Option Int) : Int :=
  match lookup with
  | none => lastOffset
  | some o => if o = -1 then lastOffset else o

/-- Franz-go/kadm revision, lines 111–121: `startOffset` is initialized
to `firstOffset` and overwritten only when `ListOffsetsAfterMilli`
succeeds and the topic/partition entry is present (all of which `none`
folds together); there is no sentinel check in that revision. -/
def resolveStartOffsetKadm (firstOffset : Int) (lookup : Option Int) : Int :=
  match lookup with
  | none => firstOffset
  | some o => o

/-- Franz-go/kadm revision, lines 123–134, for the end endpoint. -/
def resolveEndOffsetKadm (lastOffset : Int) (lookup : Option Int) : Int :=
  match lookup with
  | none => lastOffset
  | some o => o

/-! ## The extraction pipeline after time parsing

`ExtractEnv` packages what the external Kafka capability returns during
one run: the partition-0 boundary offsets, the two timestamp-lookup
results (`none` = the call failed), and the record stream a reader
positioned at a given offset delivers before EOF or the deadline. -/
structure ExtractEnv where
  firstOffset : Int
  lastOffset : Int
  startLookup : Option Int
  endLookup : Option Int
  read : Int → List FetchedRecord

/-- Errors `extractCmd` can return between the boundary-offset query and
serialization.  `noMessagesInTopic` is the `EmptyPartition`-class error
("no messages found in topic"), `noMessagesInRange` the
`EmptyResultWindow`-class error ("no messages found in time range ...").
Returning an error from cobra's `RunE` exits non-zero. -/
inductive ExtractError where
  | noMessagesInTopic
  | noMessagesInRange
deriving DecidableEq, Repr

/-- The kafka-go `extractCmd` body from the boundary-offset check to the
end of the read loop: fail when `firstOffset == lastOffset`; resolve
both endpoints with their fallbacks; fail when `startOffset >=
endOffset`; otherwise read from `startOffset` collecting envelopes. -/
def extractRun (topic : String) (env : ExtractEnv) : Except ExtractError (List MessageEnvelope) :=
  if env.firstOffset = env.lastOffset then .error .noMessagesInTopic
  else
    let startOffset := resolveStartOffset env.firstOffset env.startLookup
    let endOffset := resolveEndOffset env.lastOffset env.endLookup
    if endOffset ≤ startOffset then .error .noMessagesInRange
    else .ok (readLoop topic endOffset (env.read startOffset))

/-- In `extractCmd`, `os.Create(output)` is reached only after the read
loop completes, on the success path; every error return happens before
the file is created. -/
def outputFileWritten (topic : String) (env : ExtractEnv) : Bool :=
  match extractRun topic env with
  | .ok _ => true
  | .error _ => false

/-! ## The time parser

`parseTimeWithTimezone` tries six Go layout strings in order: the first
two with `time.Parse` (layouts that carry an explicit offset), the last
four with `time.ParseInLocation(..., time.Local)`.  The standard
library's layout matching is the external part; it is abstracted as an
oracle giving, for a layout and an input, the parsed instant or `none`.
Instants are Unix milliseconds as `Int` (the code feeds them to
`UnixMilli`). -/

/-- The layout list of `parseTimeWithTimezone`, in the order the code
tries them: `time.RFC3339`, `time.RFC3339Nano`, then the four
offset-less layouts. -/
def supportedFormats : List String :=
  ["2006-01-02T15:04:05Z07:00",
   "2006-01-02T15:04:05.999999999Z07:00",
   "2006-01-02T15:04:05",
   "2006-01-02 15:04:05",
   "2006-01-02T15:04",
   "2006-01-02 15:04"]

/-- The external layout matcher: `parseAbs layout s` models
`time.Parse(layout, s)` and `parseLocal layout s` models
`time.ParseInLocation(layout, s, time.Local)`, each returning the
instant on success. -/
structure TimeParseOracle where
  parseAbs : String → String → Option Int
  parseLocal : String → String → Option Int

/-- Result of the time parser: an instant, or the
`InvalidTimeFormat`-class error, which carries the offending input and
the supported formats (the Go error message lists them). -/
inductive TimeParseResult where
  | ok (instant : Int)
  | invalidTimeFormat (input : String) (supported : List String)
deriving DecidableEq, Repr

/-- The `for _, format := range formats[...]` loops: try each layout in
order, first success wins. -/
def tryFormats (f : String → String → Option Int) : List String → String → Option Int
  | [], _ => none
  | fmt :: rest, timeStr =>
    match f fmt timeStr with
    | some t => some t
    | none => tryFormats f rest timeStr

/-- The `parseTimeWithTimezone` function: `formats[:2]` with
`time.Parse`, then `formats[2:]` with `time.ParseInLocation`, else the
error. -/
def parseTimeWithTimezone (O : TimeParseOracle) (timeStr : String) : TimeParseResult :=
  match tryFormats O.parseAbs (supportedFormats.take 2) timeStr with
  | some t => .ok t
  | none =>
    match tryFormats O.parseLocal (supportedFormats.drop 2) timeStr with
    | some t => .ok t
    | none => .invalidTimeFormat timeStr supportedFormats

/-- The i-th parse attempt of `parseTimeWithTimezone` (attempts 0 and 1
use `time.Parse`, attempts 2–5 use `time.ParseInLocation`). -/
def formatTrial (O : TimeParseOracle) (timeStr : String) (i : Nat) : Option Int :=
  if i < 2 then O.parseAbs (supportedFormats.getD i "") timeStr
  else O.parseLocal (supportedFormats.getD i "") timeStr

/-! ## The default-window policy of the orchestrator

Lines 310–318: before any parsing, `extractCmd` checks
`fromStr == "" || toStr == ""` and, when either is empty, overwrites
BOTH with `time.Now().Add(-15m).Format(RFC3339)` and
`time.Now().Format(RFC3339)`.  Instants are modelled in whole seconds
(RFC3339 formatting keeps second precision, so the formatted default
endpoints are within one second of the invocation instant);
`fmt` abstracts `Format(time.RFC3339)`. -/

def defaultWindowMinutes : Nat := 15

def resolveWindowStrings (fromStr toStr : String) (fmt : Int → String) (nowSec : Int) :
    String × String :=
  if fromStr = "" ∨ toStr = "" then
    (fmt (nowSec - (defaultWindowMinutes : Int) * 60), fmt nowSec)
  else (fromStr, toStr)

/-! ## Envelope serialization

`enc.Encode(messages)` writes the collected envelopes as a JSON array;
with Go's default field naming an envelope becomes the object
`\x7b"Topic": ..., "Headers": ..., "Message": ...\x7d`, a
`map[string]string` becomes an object of strings, and a nil body map
becomes `null`.  The encoder is modelled at the JSON-value level (the
byte rendering — UTF-8, 2-space indentation — is `encoding/json`
itself). -/

def encodeHeaders (hs : List (String × String)) : Json :=
  .obj (hs.map fun p => (p.1, .str p.2))

def encodeMessage : Option (List (String × Json)) → Json
  | none => .null
  | some fields => .obj fields

def encodeEnvelope (e : MessageEnvelope) : Json :=
  .obj [("Topic", .str e.Topic), ("Headers", encodeHeaders e.Headers),
        ("Message", encodeMessage e.Message)]

def encodeEnvelopes (es : List MessageEnvelope) : Json :=
  .arr (es.map encodeEnvelope)

/-- Reading one serialized envelope back from its JSON object. -/
def decodeHeaderField : Json → Option (List (String × String))
  | .obj fields =>
    fields.mapM fun kv =>
      match kv.2 with
      | .str s => some (kv.1, s)
      | _ => none
  | _ => none

def decodeMessageField : Json → Option (Option (List (String × Json)))
  | .null => some none
  | .obj fields => some (some fields)
  | _ => none

def decodeEnvelopeJson : Json → Option MessageEnvelope
  | .obj [("Topic", .str t), ("Headers", h), ("Message", m)] =>
    match decodeHeaderField h, decodeMessageField m with
    | some hs, some msg => some ⟨t, hs, msg⟩
    | _, _ => none
  | _ => none

def decodeEnvelopesJson : Json → Option (List MessageEnvelope)
  | .arr items => items.mapM decodeEnvelopeJson
  | _ => none

/-! ## Helper lemmas -/

/-- The read loop keeps exactly the longest prefix of the delivered
stream whose offsets are below `endOffset`, each decoded in order. -/
theorem readLoop_eq_takeWhile_map (topic : String) (endOffset : Int) (rs : List FetchedRecord) :
    readLoop topic endOffset rs =
      (rs.takeWhile (fun r => r.offset < endOffset)).map (decodeRecord topic) := by
  induction rs with
  | nil => rfl
  | cons r rs ih =>
    by_cases h : r.offset < endOffset
    · simp [readLoop, List.takeWhile_cons, h, not_le.mpr h, ih]
    · simp [readLoop, List.takeWhile_cons, h, not_lt.mp h]

/-- A strictly increasing list of record offsets all lying in
`[s, e)` has at most `e - s` entries. -/
theorem length_le_span (l : List FetchedRecord) (s e : Int)
    (hp : l.Pairwise (fun a b => a.offset < b.offset))
    (hm : ∀ r ∈ l, s ≤ r.offset ∧ r.offset < e) :
    l.length ≤ (e - s).toNat := by
  induction l generalizing s with
  | nil => simp
  | cons r rs ih =>
    have hr := hm r (List.mem_cons_self r rs)
    have hrs : ∀ x ∈ rs, r.offset + 1 ≤ x.offset ∧ x.offset < e := by
      intro x hx
      exact ⟨by have := (List.pairwise_cons.mp hp).1 x hx; omega,
             (hm x (List.mem_cons_of_mem r hx)).2⟩
    have := ih (r.offset + 1) (List.pairwise_cons.mp hp).2 (fun x hx => hrs x hx)
    simp only [List.length_cons]
    omega

/-- Truncating the delivered stream never lengthens the kept prefix. -/
theorem takeWhile_take_length_le {α : Type} (p : α → Bool) (l : List α) (k : Nat) :
    ((l.take k).takeWhile p).length ≤ (l.takeWhile p).length := by
  induction l generalizing k with
  | nil => simp
  | cons x xs ih =>
    cases k with
    | zero => simp
    | succ k =>
      by_cases h : p x
      · simp [List.takeWhile_cons, h, ih k]
      · simp [List.takeWhile_cons, h]

/-! ## Claims -/

/-- C1: in an extraction run with resolved offsets `startOffset <
endOffset`, the read loop appends only envelopes of records with offset
in `[startOffset, endOffset)` — it stops at the first record with
offset `>= endOffset` — so for any truncation point `k` (the deadline
cutting the delivered stream short) the result has at most
`endOffset - startOffset` envelopes and never more than the untruncated
run.  The hypotheses state what the partition guarantees: a cursor
positioned at `startOffset` delivers records with offsets `>=
startOffset`, strictly increasing. -/
theorem extract_loop_window_bounds (topic : String) (startOffset endOffset : Int) (k : Nat)
    (rs : List FetchedRecord)
    (hlow : ∀ r ∈ rs, startOffset ≤ r.offset)
    (hmono : rs.Pairwise (fun a b => a.offset < b.offset)) :
    readLoop topic endOffset (rs.take k) =
      ((rs.take k).takeWhile (fun r => r.offset < endOffset)).map (decodeRecord topic) ∧
    (∀ r ∈ (rs.take k).takeWhile (fun r => r.offset < endOffset),
        startOffset ≤ r.offset ∧ r.offset < endOffset) ∧
    (readLoop topic endOffset (rs.take k)).length ≤ (endOffset - startOffset).toNat ∧
    (readLoop topic endOffset (rs.take k)).length ≤ (readLoop topic endOffset rs).length := by
  have hsub : List.Sublist ((rs.take k).takeWhile (fun r => r.offset < endOffset)) rs :=
    (List.takeWhile_sublist _).trans (List.take_sublist _ _)
  have hmem : ∀ r ∈ (rs.take k).takeWhile (fun r => r.offset < endOffset),
      startOffset ≤ r.offset ∧ r.offset < endOffset := by
    intro r hr
    refine ⟨hlow r (hsub.subset hr), ?_⟩
    simpa using List.mem_takeWhile_imp hr
  refine ⟨readLoop_eq_takeWhile_map topic endOffset (rs.take k), hmem, ?_, ?_⟩
  · rw [readLoop_eq_takeWhile_map, List.length_map]
    exact length_le_span _ startOffset endOffset (hmono.sublist hsub) hmem
  · rw [readLoop_eq_takeWhile_map, readLoop_eq_takeWhile_map, List.length_map,
      List.length_map]
    exact takeWhile_take_length_le _ rs k

theorem extract_loop_window_bounds_witness :
    (readLoop "orders" 1350
        ([⟨1348, [], "x"⟩, ⟨1349, [], "y"⟩, ⟨1350, [], "z"⟩].take 9)).length ≤
      ((1350 : Int) - 1200).toNat :=
  (extract_loop_window_bounds "orders" 1200 1350 9
    [⟨1348, [], "x"⟩, ⟨1349, [], "y"⟩, ⟨1350, [], "z"⟩]
    (by decide) (by decide)).2.2.1

/-- C2: a failed timestamp-to-offset lookup (`none`) or the sentinel
`-1` never aborts the run: the start endpoint falls back to the
partition's earliest offset and the end endpoint to its latest (in the
kadm revision the fallback fires on failure), and when both lookups
fail on a non-empty partition the run proceeds — `extractRun` returns
`ok` and reads exactly the range `(firstOffset, lastOffset)`. -/
theorem lookup_failure_falls_back (topic : String) (firstOffset lastOffset : Int)
    (read : Int → List FetchedRecord) (h : firstOffset < lastOffset) :
    (∀ f l : Int,
      resolveStartOffset f none = f ∧ resolveEndOffset l none = l ∧
      resolveStartOffset f (some (-1)) = f ∧ resolveEndOffset l (some (-1)) = l ∧
      resolveStartOffsetKadm f none = f ∧ resolveEndOffsetKadm l none = l) ∧
    extractRun topic ⟨firstOffset, lastOffset, none, none, read⟩ =
      .ok (readLoop topic lastOffset (read firstOffset)) := by
  refine ⟨fun f l => ⟨rfl, rfl, by simp [resolveStartOffset], by simp [resolveEndOffset],
    rfl, rfl⟩, ?_⟩
  simp only [extractRun, resolveStartOffset, resolveEndOffset]
  rw [if_neg (by omega), if_neg (by omega)]

theorem lookup_failure_falls_back_witness :
    extractRun "orders" ⟨1000, 2000, none, none, fun _ => []⟩ = .ok [] :=
  (lookup_failure_falls_back "orders" 1000 2000 (fun _ => []) (by decide)).2

/-- C3: when the resolved offsets collapse (`startOffset >= endOffset`)
on a non-empty partition, the command returns the
`EmptyResultWindow`-class error "no messages found in time range" — a
non-zero exit through cobra's `RunE` — and the output file is not
created, since `os.Create` is reached only after the read loop on the
success path. -/
theorem empty_result_window_aborts (topic : String) (env : ExtractEnv)
    (hne : env.firstOffset ≠ env.lastOffset)
    (hrange : resolveEndOffset env.lastOffset env.endLookup ≤
      resolveStartOffset env.firstOffset env.startLookup) :
    extractRun topic env = .error .noMessagesInRange ∧
    outputFileWritten topic env = false := by
  have hrun : extractRun topic env = .error .noMessagesInRange := by
    simp only [extractRun, if_neg hne, if_pos hrange]
  exact ⟨hrun, by simp [outputFileWritten, hrun]⟩

theorem empty_result_window_aborts_witness :
    extractRun "orders" ⟨1000, 2000, some 1500, some 1200, fun _ => []⟩ =
      .error .noMessagesInRange ∧
    outputFileWritten "orders" ⟨1000, 2000, some 1500, some 1200, fun _ => []⟩ = false :=
  empty_result_window_aborts "orders" ⟨1000, 2000, some 1500, some 1200, fun _ => []⟩
    (by decide) (by decide)

/-- C8: when the partition's earliest and latest offsets coincide the
command fails with the `EmptyPartition`-class error "no messages found
in topic", whatever the timestamp lookups or the reader would return —
the error is decided before any of them is consulted. -/
theorem empty_partition_guard (topic : String) (boundary : Int)
    (startLookup endLookup : Option Int) (read : Int → List FetchedRecord) :
    extractRun topic ⟨boundary, boundary, startLookup, endLookup, read⟩ =
      .error .noMessagesInTopic := by
  simp [extractRun]

/-- C4: offset resolution is monotonic within one run.  `L` is the
external timestamp-lookup capability; "behaving monotonically" is the
assumption that its successful non-sentinel answers are real offsets of
the partition (in `[firstOffset, lastOffset]`) and are non-decreasing
in the queried instant.  Then for `t1 < t2` the resolved start offset
(with its earliest-offset fallback) never exceeds the resolved end
offset (with its latest-offset fallback). -/
theorem offset_resolution_monotone (L : Int → Option Int) (firstOffset lastOffset t1 t2 : Int)
    (hfl : firstOffset ≤ lastOffset) (ht : t1 < t2)
    (hrange : ∀ t o, L t = some o → o ≠ -1 → firstOffset ≤ o ∧ o ≤ lastOffset)
    (hmono : ∀ s t o1 o2, s ≤ t → L s = some o1 → L t = some o2 →
      o1 ≠ -1 → o2 ≠ -1 → o1 ≤ o2) :
    resolveStartOffset firstOffset (L t1) ≤ resolveEndOffset lastOffset (L t2) := by
  rcases h1 : L t1 with _ | o1 <;> rcases h2 : L t2 with _ | o2 <;>
    simp only [resolveStartOffset, resolveEndOffset]
  · exact hfl
  · by_cases hs2 : o2 = -1
    · simp [hs2, hfl]
    · simp only [if_neg hs2]
      exact (hrange t2 o2 h2 hs2).1
  · by_cases hs1 : o1 = -1
    · simp [hs1, hfl]
    · simp only [if_neg hs1]
      exact (hrange t1 o1 h1 hs1).2
  · by_cases hs1 : o1 = -1
    · by_cases hs2 : o2 = -1
      · simp [hs1, hs2, hfl]
      · simp only [hs1, if_pos rfl, if_neg hs2]
        exact (hrange t2 o2 h2 hs2).1
    · by_cases hs2 : o2 = -1
      · simp only [if_neg hs1, if_pos hs2]
        exact (hrange t1 o1 h1 hs1).2
      · simp only [if_neg hs1, if_neg hs2]
        exact hmono t1 t2 o1 o2 (le_of_lt ht) h1 h2 hs1 hs2

theorem offset_resolution_monotone_witness :
    resolveStartOffset 1000 ((fun _ : Int => (none : Option Int)) 5) ≤
      resolveEndOffset 2000 ((fun _ : Int => (none : Option Int)) 7) :=
  offset_resolution_monotone (fun _ => none) 1000 2000 5 7 (by decide) (by decide)
    (fun t o h => nomatch h) (fun s t o1 o2 hst h1 => nomatch h1)

/-- C7: when `--from` or `--to` is omitted (empty string), the
orchestrator — before any call to the time parser — overwrites BOTH
endpoints with the formatted instants `now - 15 minutes` and `now`,
so the resolved window is exactly `[now - 15*60 s, now]` at second
granularity (RFC3339 formatting keeps whole seconds, hence within one
second of the invocation instant). -/
theorem default_window_policy (fromStr toStr : String) (fmt : Int → String) (nowSec : Int)
    (h : fromStr = "" ∨ toStr = "") :
    resolveWindowStrings fromStr toStr fmt nowSec =
      (fmt (nowSec - 15 * 60), fmt nowSec) ∧
    nowSec - (nowSec - 15 * 60) = 15 * 60 := by
  constructor
  · simp only [resolveWindowStrings, if_pos h, defaultWindowMinutes]
    norm_num
  · omega

theorem default_window_policy_witness :
    resolveWindowStrings "" "2025-10-08T16:00:00+02:00" (fun _ => "now") 0 = ("now", "now") :=
  (default_window_policy "" "2025-10-08T16:00:00+02:00" (fun _ => "now") 0 (Or.inl rfl)).1

/-- C5: the time parser tries exactly the six layouts in the stated
order — RFC3339 with offset, RFC3339 with fractional seconds and
offset (via `time.Parse`), then the four offset-less layouts resolved
in the local timezone (via `time.ParseInLocation`).  Whenever attempt
`i` succeeds and all earlier attempts fail, its value is the result
(so the first successful match wins and later attempts cannot change
the outcome), and when all six fail the result is the
`InvalidTimeFormat`-class error carrying the input and the supported
formats. -/
theorem time_format_preference (O : TimeParseOracle) (timeStr : String) :
    supportedFormats =
      ["2006-01-02T15:04:05Z07:00",
       "2006-01-02T15:04:05.999999999Z07:00",
       "2006-01-02T15:04:05",
       "2006-01-02 15:04:05",
       "2006-01-02T15:04",
       "2006-01-02 15:04"] ∧
    (∀ i v, i < 6 → formatTrial O timeStr i = some v →
      (∀ j, j < i → formatTrial O timeStr j = none) →
      parseTimeWithTimezone O timeStr = .ok v) ∧
    ((∀ j, j < 6 → formatTrial O timeStr j = none) →
      parseTimeWithTimezone O timeStr = .invalidTimeFormat timeStr supportedFormats) := by
  refine ⟨rfl, ?_, ?_⟩
  · intro i v hi hv hprev
    interval_cases i
    · simp only [formatTrial, supportedFormats] at hv
      norm_num at hv
      simp [parseTimeWithTimezone, tryFormats, supportedFormats, hv]
    · have h0 := hprev 0 (by omega)
      simp only [formatTrial, supportedFormats] at hv h0
      norm_num at hv h0
      simp [parseTimeWithTimezone, tryFormats, supportedFormats, hv, h0]
    · have h0 := hprev 0 (by omega)
      have h1 := hprev 1 (by omega)
      simp only [formatTrial, supportedFormats] at hv h0 h1
      norm_num at hv h0 h1
      simp [parseTimeWithTimezone, tryFormats, supportedFormats, hv, h0, h1]
    · have h0 := hprev 0 (by omega)
      have h1 := hprev 1 (by omega)
      have h2 := hprev 2 (by omega)
      simp only [formatTrial, supportedFormats] at hv h0 h1 h2
      norm_num at hv h0 h1 h2
      simp [parseTimeWithTimezone, tryFormats, supportedFormats, hv, h0, h1, h2]
    · have h0 := hprev 0 (by omega)
      have h1 := hprev 1 (by omega)
      have h2 := hprev 2 (by omega)
      have h3 := hprev 3 (by omega)
      simp only [formatTrial, supportedFormats] at hv h0 h1 h2 h3
      norm_num at hv h0 h1 h2 h3
      simp [parseTimeWithTimezone, tryFormats, supportedFormats, hv, h0, h1, h2, h3]
    · have h0 := hprev 0 (by omega)
      have h1 := hprev 1 (by omega)
      have h2 := hprev 2 (by omega)
      have h3 := hprev 3 (by omega)
      have h4 := hprev 4 (by omega)
      simp only [formatTrial, supportedFormats] at hv h0 h1 h2 h3 h4
      norm_num at hv h0 h1 h2 h3 h4
      simp [parseTimeWithTimezone, tryFormats, supportedFormats, hv, h0, h1, h2, h3, h4]
  · intro hall
    have h0 := hall 0 (by omega)
    have h1 := hall 1 (by omega)
    have h2 := hall 2 (by omega)
    have h3 := hall 3 (by omega)
    have h4 := hall 4 (by omega)
    have h5 := hall 5 (by omega)
    simp only [formatTrial, supportedFormats] at h0 h1 h2 h3 h4 h5
    norm_num at h0 h1 h2 h3 h4 h5
    simp [parseTimeWithTimezone, tryFormats, supportedFormats, h0, h1, h2, h3, h4, h5]

theorem time_format_preference_witness :
    parseTimeWithTimezone
      ⟨fun fmt _ => if fmt = "2006-01-02T15:04:05Z07:00" then some 42 else none,
       fun _ _ => none⟩ "2025-10-08T15:00:00+02:00" = .ok 42 :=
  (time_format_preference
      ⟨fun fmt _ => if fmt = "2006-01-02T15:04:05Z07:00" then some 42 else none,
       fun _ _ => none⟩ "2025-10-08T15:00:00+02:00").2.1 0 42 (by omega)
    (by simp [formatTrial, supportedFormats])
    (fun j hj => absurd hj (Nat.not_lt_zero j))

/-- C6: a record payload that is not valid JSON never aborts decoding —
`decodeBody` is total — and its envelope body is the synthetic map
`\x7b"raw": payload\x7d`.  The witness instantiates the spec's
Scenario D payload `not valid json`. -/
theorem invalid_json_payload_wrapped (payload : String)
    (h : parseJson payload = none) :
    decodeBody payload = some [("raw", Json.str payload)] := by
  simp [decodeBody, unmarshalIntoMap, h]

theorem invalid_json_payload_wrapped_witness :
    parseJson "not valid json" = none ∧
    decodeBody "not valid json" = some [("raw", Json.str "not valid json")] :=
  ⟨rfl, invalid_json_payload_wrapped "not valid json" rfl⟩

/-- C10 counterexample: the payload `null` is valid JSON and is not a
JSON object, yet it is NOT replaced by the synthetic
`\x7b"raw": ...\x7d` wrapper — `json.Unmarshal` of `null` into a map is
a no-op that returns no error, so the body stays the nil map and the
envelope's message serializes as JSON `null`. -/
theorem null_payload_not_wrapped :
    parseJson "null" = some Json.null ∧
    decodeBody "null" = none ∧
    decodeBody "null" ≠ some [("raw", Json.str "null")] :=
  ⟨rfl, rfl, fun h => Option.noConfusion h⟩

/-- C10 amended: a payload that is valid JSON decodes by kind — an
object keeps its fields, `null` leaves the body map nil (the message
field becomes JSON `null`, not the wrapper), and every other kind
(array, string, number, boolean) is replaced by the synthetic
`\x7b"raw": payload\x7d` wrapper exactly as if it were invalid. -/
theorem valid_json_payload_decoding (s : String) (v : Json)
    (h : parseJson s = some v) :
    decodeBody s =
      (match v with
       | .null => none
       | .obj fields => some fields
       | _ => some [("raw", Json.str s)]) := by
  cases v <;> simp [decodeBody, unmarshalIntoMap, h]

theorem valid_json_payload_decoding_witness :
    parseJson "[1]" = some (Json.arr [Json.num "1"]) ∧
    decodeBody "[1]" = some [("raw", Json.str "[1]")] :=
  ⟨rfl, valid_json_payload_decoding "[1]" (Json.arr [Json.num "1"]) rfl⟩

/-- Decoding a header object produced by `encodeHeaders` recovers the
original pairs. -/
theorem decodeHeaderField_encodeHeaders (hs : List (String × String)) :
    decodeHeaderField (encodeHeaders hs) = some hs := by
  induction hs with
  | nil => rfl
  | cons p ps ih =>
    simp only [encodeHeaders, decodeHeaderField, List.map_cons, List.mapM_cons] at ih ⊢
    simp_all

/-- Decoding one serialized envelope recovers it field for field. -/
theorem decodeEnvelopeJson_encodeEnvelope (e : MessageEnvelope) :
    decodeEnvelopeJson (encodeEnvelope e) = some e := by
  obtain ⟨t, hs, msg⟩ := e
  cases msg <;>
    simp [encodeEnvelope, decodeEnvelopeJson, encodeMessage, decodeMessageField,
      decodeHeaderField_encodeHeaders]

/-- C9: round-trip at the JSON-value level — serializing any `N`
collected envelopes as the array of
`\x7b"Topic", "Headers", "Message"\x7d` objects and reading that array
back yields exactly the original `N` envelopes, topic, headers and
message matching field for field (the byte rendering of that value —
UTF-8, 2-space indentation — is `encoding/json` itself). -/
theorem envelope_roundtrip (es : List MessageEnvelope) :
    decodeEnvelopesJson (encodeEnvelopes es) = some es ∧
    encodeEnvelopes es = .arr (es.map encodeEnvelope) ∧
    (es.map encodeEnvelope).length = es.length := by
  refine ⟨?_, rfl, by simp⟩
  simp only [decodeEnvelopesJson, encodeEnvelopes]
  induction es with
  | nil => rfl
  | cons e es ih =>
    simp only [List.map_cons, List.mapM_cons, decodeEnvelopeJson_encodeEnvelope, ih]
    rfl

end KafkaCli
